import Mathlib

/-!
Verification of the ikl image-migration tool's core logic against its
specification.  The Go sources are shallowly embedded: pure string
manipulation is translated to functions on `String`/`List Char`, the
network is abstracted as explicit oracles (functions from URLs/digests to
response outcomes), and the concurrent pieces (tag enumeration, progress
channel close) are modelled by quantifying over completion orders and by an
explicit channel-state transition function.
-/

/-! ## Go `strings` primitives

Character-list models of the `strings` functions the sources use.
`strContains s pat` models `strings.Contains(s, pat)`, `strIndexOfSub`
models `strings.Index`, `strTrim` models `strings.TrimSpace` (restricted to
ASCII whitespace, the only whitespace appearing in the configs modelled),
`splitOnChar` models `strings.Split` with a one-character separator (the
only separators the sources use). -/

def isSpaceChar (c : Char) : Bool :=
  c = ' ' || c = '\t' || c = '\n' || c = '\r'

def strContains (s pat : String) : Bool :=
  (List.range (s.data.length + 1)).any (fun i => pat.data.isPrefixOf (s.data.drop i))

def strIndexOfSub (s pat : String) : Option Nat :=
  (List.range (s.data.length + 1)).find? (fun i => pat.data.isPrefixOf (s.data.drop i))

def strContainsChar (s : String) (c : Char) : Bool :=
  s.data.contains c

def strStartsWith (s pat : String) : Bool :=
  pat.data.isPrefixOf s.data

def strDrop (s : String) (n : Nat) : String :=
  ⟨s.data.drop n⟩

def strTake (s : String) (n : Nat) : String :=
  ⟨s.data.take n⟩

def strTrim (s : String) : String :=
  ⟨((s.data.dropWhile isSpaceChar).reverse.dropWhile isSpaceChar).reverse⟩

def splitOnCharAux (sep : Char) : List Char → List (List Char)
  | [] => [[]]
  | c :: rest =>
      match splitOnCharAux sep rest with
      | [] => [[c]]
      | h :: t => if c = sep then [] :: h :: t else (c :: h) :: t

def strSplit (s : String) (sep : Char) : List String :=
  (splitOnCharAux sep s.data).map (fun l => ⟨l⟩)

def joinWithChar (sep : Char) : List String → String
  | [] => ""
  | [s] => s
  | s :: rest => s ++ ⟨[sep]⟩ ++ joinWithChar sep rest

/-! ## Data model: platforms, descriptors, indexes

Translated from `go-containerregistry`'s `v1.Platform` / `v1.Descriptor` /
`v1.IndexManifest` restricted to the fields the ikl sources read, and from
`registry.TagDetail` in `pkg/registry/client.go`. -/

structure Platform where
  os : String
  architecture : String
  variant : String := ""
deriving Repr, DecidableEq

structure Descriptor where
  digest : String
  platform : Option Platform := none
deriving Repr, DecidableEq

structure IndexManifest where
  schemaVersion : Nat
  mediaType : String
  manifests : List Descriptor
  annots : List (String × String) := []
deriving Repr, DecidableEq

/-- `v1.ConfigFile` restricted to the fields `CopyImage`/`GetTagDetail`
read: `OS`, `Architecture`, and `Created` (a timestamp, `0` modelling Go's
zero `time.Time`). -/
structure ConfigFile where
  os : String
  architecture : String
  created : Nat := 0
deriving Repr, DecidableEq

/-! ## `CopyImage` (pkg/registry/client.go): index branch -/

/-- One token test of the filter loop in `CopyImage`:
`strings.Contains(m.Platform.Architecture, p) ||
 strings.Contains(fmt.Sprintf("%s/%s", m.Platform.OS, m.Platform.Architecture), p)`. -/
def platformTokenMatch (pl : Platform) (p : String) : Bool :=
  strContains pl.architecture p || strContains (pl.os ++ "/" ++ pl.architecture) p

def platformMatches (pl : Platform) (platforms : List String) : Bool :=
  platforms.any (platformTokenMatch pl)

/-- The `kept` slice computed by `CopyImage`'s filter loop: descriptors
with `m.Platform == nil` are skipped (`continue`), the rest are kept when
some requested token matches (the inner loop `break`s on first match). -/
def keptDescriptors (manifests : List Descriptor) (platforms : List String) : List Descriptor :=
  manifests.filter (fun m =>
    match m.platform with
    | none => false
    | some pl => platformMatches pl platforms)

/-- `filteredIndex.IndexManifest`: same schema version, media type and
annotations as the wrapped index, but with `Manifests` replaced by the
retained descriptor slice. -/
def filteredIndexManifest (orig : IndexManifest) (kept : List Descriptor) : IndexManifest :=
  { orig with manifests := kept }

/-- Outcome of `CopyImage` when the source descriptor is an index.  The
constructors name the write actually performed (`remote.WriteIndex` on the
original index, `remote.Write` on a resolved child image,
`remote.WriteIndex` on the `filteredIndex` wrapper) or the error return
`fmt.Errorf("未找到符合架构 %v 的镜像", platforms)`, which carries the
requested filter and is reached before any write. -/
inductive CopyResult where
  | pushedIndexUnmodified (m : IndexManifest)
  | pushedImage (d : Descriptor)
  | pushedFilteredIndex (m : IndexManifest)
  | failedNoMatchingPlatform (platforms : List String)
deriving Repr, DecidableEq

/-- The index branch of `CopyImage` (normalize.go `registry` part,
lines 307-353): empty filter pushes the index unmodified; otherwise the
descriptors are filtered, zero survivors is an error, exactly one survivor
is resolved to an image and written with `remote.Write`, two or more
survivors are wrapped in `filteredIndex` and written with
`remote.WriteIndex`.  (Read failures while resolving the single child
surface verbatim and are outside this model.) -/
def copyIndexSource (orig : IndexManifest) (platforms : List String) : CopyResult :=
  if platforms.length > 0 then
    match keptDescriptors orig.manifests platforms with
    | [] => .failedNoMatchingPlatform platforms
    | [d] => .pushedImage d
    | kept => .pushedFilteredIndex (filteredIndexManifest orig kept)
  else .pushedIndexUnmodified orig

/-! ## `CopyImage`: single-image branch -/

inductive SingleCopyResult where
  | pushedImage
  | failedPlatformMismatch (arch : String) (platforms : List String)
deriving Repr, DecidableEq

/-- The single-image branch of `CopyImage` (lines 355-381): with a
non-empty filter and a readable config file it requires
`strings.Contains(cfg.Architecture, p)` for some token `p`; on no match it
fails with `fmt.Errorf("镜像架构 %s 不匹配目标 %v", ...)` before the write.
A config-file read error (`cfg = none`) skips the check. -/
def copySingleImage (cfg : Option ConfigFile) (platforms : List String) : SingleCopyResult :=
  if platforms.length > 0 then
    match cfg with
    | none => .pushedImage
    | some c =>
        if platforms.any (fun p => strContains c.architecture p) then .pushedImage
        else .failedPlatformMismatch c.architecture platforms
  else .pushedImage

/-- The platform-matching rule as §3 of the spec words it: a requested
token matches if it occurs as a substring of the architecture field alone
or of the `os/arch` concatenation.  (Claim-side definition, for comparison
with the single-image branch of the source.) -/
def specSubstringRuleMatch (os arch : String) (platforms : List String) : Bool :=
  platforms.any (fun p => strContains arch p || strContains (os ++ "/" ++ arch) p)

/-! ## Claim C1: index filtering -/

/-- C1: for a multi-architecture index copied with a non-empty platform
filter, `CopyImage` keeps exactly the child descriptors whose platform
matches some filter token (in index order); zero matches fail with the
no-matching-platform error naming the filter and push nothing; exactly one
match pushes the single resolved image (never a one-entry index); two or
more matches push a `filteredIndex` whose descriptor sequence is exactly
the matching descriptors. -/
theorem copyImage_index_filtering (orig : IndexManifest) (platforms : List String)
    (hne : platforms ≠ []) :
    (∀ d, d ∈ keptDescriptors orig.manifests platforms ↔
        d ∈ orig.manifests ∧ ∃ pl, d.platform = some pl ∧ platformMatches pl platforms = true) ∧
    List.Sublist (keptDescriptors orig.manifests platforms) orig.manifests ∧
    (keptDescriptors orig.manifests platforms = [] →
        copyIndexSource orig platforms = CopyResult.failedNoMatchingPlatform platforms) ∧
    (∀ d, keptDescriptors orig.manifests platforms = [d] →
        copyIndexSource orig platforms = CopyResult.pushedImage d) ∧
    (∀ m, copyIndexSource orig platforms = CopyResult.pushedFilteredIndex m →
        m.manifests = keptDescriptors orig.manifests platforms ∧ 2 ≤ m.manifests.length) ∧
    (2 ≤ (keptDescriptors orig.manifests platforms).length →
        copyIndexSource orig platforms =
          CopyResult.pushedFilteredIndex
            (filteredIndexManifest orig (keptDescriptors orig.manifests platforms))) := by
  have hpos : 0 < platforms.length := List.length_pos.mpr hne
  refine ⟨?_, ?_, ?_, ?_, ?_, ?_⟩
  · intro d
    simp only [keptDescriptors, List.mem_filter]
    constructor
    · rintro ⟨hmem, hp⟩
      refine ⟨hmem, ?_⟩
      cases hpl : d.platform with
      | none => rw [hpl] at hp; simp at hp
      | some pl => rw [hpl] at hp; exact ⟨pl, rfl, hp⟩
    · rintro ⟨hmem, pl, hpl, hmatch⟩
      exact ⟨hmem, by rw [hpl]; exact hmatch⟩
  · exact List.filter_sublist _
  · intro hk
    unfold copyIndexSource
    rw [if_pos hpos, hk]
  · intro d hk
    unfold copyIndexSource
    rw [if_pos hpos, hk]
  · intro m hm
    unfold copyIndexSource at hm
    rw [if_pos hpos] at hm
    rcases hk : keptDescriptors orig.manifests platforms with _ | ⟨a, _ | ⟨b, t⟩⟩
    · rw [hk] at hm; cases hm
    · rw [hk] at hm; cases hm
    · rw [hk] at hm
      injection hm with hm
      subst hm
      refine ⟨by simp [filteredIndexManifest, hk], ?_⟩
      simp [filteredIndexManifest]
  · intro h2
    unfold copyIndexSource
    rw [if_pos hpos]
    rcases hk : keptDescriptors orig.manifests platforms with _ | ⟨a, _ | ⟨b, t⟩⟩
    · rw [hk] at h2; simp at h2
    · rw [hk] at h2; simp at h2
    · rfl

/-- A concrete four-descriptor index for the C1 witness. -/
def wIdx : IndexManifest :=
  ⟨2, "application/vnd.docker.distribution.manifest.list.v2+json",
    [⟨"sha256:a", some ⟨"linux", "amd64", ""⟩⟩,
     ⟨"sha256:b", some ⟨"linux", "arm64", "v8"⟩⟩,
     ⟨"sha256:u", some ⟨"unknown", "unknown", ""⟩⟩,
     ⟨"sha256:n", none⟩], []⟩

/-- Witness for C1 at a concrete index and the filter `["amd64", "arm64"]`. -/
theorem copyImage_index_filtering_witness :
    (["amd64", "arm64"] ≠ ([] : List String)) ∧
    ((∀ d, d ∈ keptDescriptors wIdx.manifests ["amd64", "arm64"] ↔
        d ∈ wIdx.manifests ∧
          ∃ pl, d.platform = some pl ∧ platformMatches pl ["amd64", "arm64"] = true) ∧
     List.Sublist (keptDescriptors wIdx.manifests ["amd64", "arm64"]) wIdx.manifests ∧
     (keptDescriptors wIdx.manifests ["amd64", "arm64"] = [] →
        copyIndexSource wIdx ["amd64", "arm64"]
          = CopyResult.failedNoMatchingPlatform ["amd64", "arm64"]) ∧
     (∀ d, keptDescriptors wIdx.manifests ["amd64", "arm64"] = [d] →
        copyIndexSource wIdx ["amd64", "arm64"] = CopyResult.pushedImage d) ∧
     (∀ m, copyIndexSource wIdx ["amd64", "arm64"] = CopyResult.pushedFilteredIndex m →
        m.manifests = keptDescriptors wIdx.manifests ["amd64", "arm64"] ∧
          2 ≤ m.manifests.length) ∧
     (2 ≤ (keptDescriptors wIdx.manifests ["amd64", "arm64"]).length →
        copyIndexSource wIdx ["amd64", "arm64"] =
          CopyResult.pushedFilteredIndex
            (filteredIndexManifest wIdx (keptDescriptors wIdx.manifests ["amd64", "arm64"])))) :=
  ⟨by decide, copyImage_index_filtering wIdx ["amd64", "arm64"] (by decide)⟩

/-! ## Claim C2: single-image platform check -/

/-- C2 counterexample: the image declares `os = linux`, `architecture =
amd64`; the requested token `linux/amd64` matches under the §3 substring
rule (it is a substring of the `os/arch` concatenation), yet the
single-image branch of `CopyImage` fails with the platform-mismatch error,
because that branch tests only `strings.Contains(cfg.Architecture, p)`. -/
theorem copySingleImage_osarch_token_rejected :
    specSubstringRuleMatch "linux" "amd64" ["linux/amd64"] = true ∧
    copySingleImage (some ⟨"linux", "amd64", 0⟩) ["linux/amd64"]
      = SingleCopyResult.failedPlatformMismatch "amd64" ["linux/amd64"] := by decide

/-- C2 amended: for a single-architecture image copied with a non-empty
filter (and a readable config), the copy pushes the image iff some filter
token occurs as a substring of the declared architecture field alone (the
`os/arch` concatenation is not consulted in this branch); otherwise it
fails with the platform-mismatch error, before any push. -/
theorem copySingleImage_arch_substring_only (c : ConfigFile) (platforms : List String)
    (hne : platforms ≠ []) :
    (copySingleImage (some c) platforms = SingleCopyResult.pushedImage
        ↔ platforms.any (fun p => strContains c.architecture p) = true) ∧
    ((∀ p ∈ platforms, strContains c.architecture p = false) →
        copySingleImage (some c) platforms
          = SingleCopyResult.failedPlatformMismatch c.architecture platforms) := by
  have hpos : 0 < platforms.length := List.length_pos.mpr hne
  have hred : copySingleImage (some c) platforms =
      if platforms.any (fun p => strContains c.architecture p) then SingleCopyResult.pushedImage
      else SingleCopyResult.failedPlatformMismatch c.architecture platforms := by
    unfold copySingleImage
    rw [if_pos hpos]
  have hnegof : (∀ p ∈ platforms, strContains c.architecture p = false) →
      ¬((platforms.any fun p => strContains c.architecture p) = true) := by
    intro hall hcontra
    rw [List.any_eq_true] at hcontra
    rcases hcontra with ⟨p, hp, hc⟩
    rw [hall p hp] at hc
    cases hc
  constructor
  · rw [hred]
    constructor
    · intro h
      by_contra hm
      rw [if_neg hm] at h
      cases h
    · intro hm
      rw [if_pos hm]
  · intro hall
    rw [hred, if_neg (hnegof hall)]

/-- Witness for the amended C2 at a concrete matching and shape-checking
input. -/
theorem copySingleImage_arch_substring_only_witness :
    (["arm64"] ≠ ([] : List String)) ∧
    ((copySingleImage (some ⟨"linux", "arm64", 0⟩) ["arm64"] = SingleCopyResult.pushedImage
        ↔ ["arm64"].any
            (fun p => strContains (ConfigFile.mk "linux" "arm64" 0).architecture p) = true) ∧
     ((∀ p ∈ ["arm64"],
          strContains (ConfigFile.mk "linux" "arm64" 0).architecture p = false) →
        copySingleImage (some ⟨"linux", "arm64", 0⟩) ["arm64"]
          = SingleCopyResult.failedPlatformMismatch
              (ConfigFile.mk "linux" "arm64" 0).architecture ["arm64"])) :=
  ⟨by decide, copySingleImage_arch_substring_only ⟨"linux", "arm64", 0⟩ ["arm64"] (by decide)⟩

/-! ## Claim C4: filtering candidacy of platform-less and unknown descriptors -/

/-- The attestation-style descriptor carried by modern indexes: platform
`unknown/unknown`. -/
def unknownDesc : Descriptor := ⟨"sha256:unk", some ⟨"unknown", "unknown", ""⟩⟩

/-- C4 counterexample: with the filter `["unknown"]`, `CopyImage`'s index
branch selects the `unknown`-architecture descriptor (it is the only
match, so it is even resolved and pushed as the single image), so
unknown-architecture descriptors are not excluded from filtering candidacy. -/
theorem copyIndex_selects_unknown_descriptor :
    copyIndexSource
      ⟨2, "application/vnd.oci.image.index.v1+json",
        [⟨"sha256:amd", some ⟨"linux", "amd64", ""⟩⟩, unknownDesc], []⟩
      ["unknown"]
      = CopyResult.pushedImage unknownDesc := by decide

/-- C4 amended: descriptors with an absent platform are excluded from
candidacy entirely; a descriptor whose platform is present (including
architecture `unknown`) is excluded exactly when no filter token matches
it under the substring rule — in particular the unknown descriptor is
never selected by any filter none of whose tokens substring-matches
`unknown` or `os/unknown`. -/
theorem keptDescriptors_candidacy (manifests : List Descriptor) (platforms : List String)
    (d : Descriptor) (pl : Platform) (hpl : d.platform = some pl)
    (hno : ∀ p ∈ platforms, platformTokenMatch pl p = false) :
    d ∉ keptDescriptors manifests platforms ∧
    ∀ e ∈ keptDescriptors manifests platforms, e.platform ≠ none := by
  constructor
  · intro hmem
    simp only [keptDescriptors, List.mem_filter] at hmem
    rcases hmem with ⟨-, hp⟩
    rw [hpl] at hp
    simp only [platformMatches, List.any_eq_true] at hp
    rcases hp with ⟨p, hpmem, hmatch⟩
    rw [hno p hpmem] at hmatch
    cases hmatch
  · intro e hmem
    simp only [keptDescriptors, List.mem_filter] at hmem
    rcases hmem with ⟨-, hp⟩
    intro hnone
    rw [hnone] at hp
    cases hp

/-- Witness for the amended C4: the `unknown/unknown` descriptor is not
kept under the filter `["amd64"]`, and no platform-less descriptor is ever
kept. -/
theorem keptDescriptors_candidacy_witness :
    (unknownDesc.platform = some ⟨"unknown", "unknown", ""⟩) ∧
    (∀ p ∈ ["amd64"], platformTokenMatch ⟨"unknown", "unknown", ""⟩ p = false) ∧
    (unknownDesc ∉ keptDescriptors
        [⟨"sha256:amd", some ⟨"linux", "amd64", ""⟩⟩, unknownDesc] ["amd64"] ∧
     ∀ e ∈ keptDescriptors
        [⟨"sha256:amd", some ⟨"linux", "amd64", ""⟩⟩, unknownDesc] ["amd64"],
        e.platform ≠ none) :=
  ⟨by decide, by decide,
   keptDescriptors_candidacy
     [⟨"sha256:amd", some ⟨"linux", "amd64", ""⟩⟩, unknownDesc] ["amd64"]
     unknownDesc ⟨"unknown", "unknown", ""⟩ (by decide) (by decide)⟩

/-! ## Claim C6: creation timestamp reported for an index-typed tag

`GetTagDetail` (pkg/registry/client.go) walks the index's child
descriptors; for each child with a `linux` platform, while
`detail.Created` is still the zero time, it fetches the child's config
file and assigns `detail.Created = cf.Created.Time`.  Timestamps are
modelled as `Nat` with `0` for Go's zero `time.Time`; the per-child
config fetch (`idx.Image(m.Digest)` then `img.ConfigFile()`) is an oracle
`config : String → Option Nat` from digest to created time, `none`
modelling a fetch error (which the code silently skips). -/

def createdStep (config : String → Option Nat) (created : Nat) (m : Descriptor) : Nat :=
  if created = 0 then
    match m.platform with
    | some pl => if pl.os = "linux" then (config m.digest).getD created else created
    | none => created
  else created

/-- The `detail.Created` value computed by `GetTagDetail`'s loop over the
index's manifests. -/
def indexCreated (manifests : List Descriptor) (config : String → Option Nat) : Nat :=
  manifests.foldl (createdStep config) 0

/-- The created time the child contributes to the loop: only children with
a present `linux` platform and a successful config fetch contribute. -/
def linuxChildTime (config : String → Option Nat) (m : Descriptor) : Option Nat :=
  match m.platform with
  | some pl => if pl.os = "linux" then config m.digest else none
  | none => none

/-- The non-zero created times of the Linux-platform children, in
descriptor order. -/
def linuxCreatedTimes (manifests : List Descriptor) (config : String → Option Nat) : List Nat :=
  (manifests.filterMap (linuxChildTime config)).filter (fun ts => decide (ts ≠ 0))

/-- The value the claim describes: the earliest (minimum) non-zero created
time among the Linux-platform children.  (Claim-side definition.) -/
def specEarliestLinuxCreated (manifests : List Descriptor)
    (config : String → Option Nat) : Nat :=
  match linuxCreatedTimes manifests config with
  | [] => 0
  | ts :: rest => rest.foldl Nat.min ts

def c6Manifests : List Descriptor :=
  [⟨"sha256:d1", some ⟨"linux", "amd64", ""⟩⟩, ⟨"sha256:d2", some ⟨"linux", "arm64", ""⟩⟩]

def c6Config : String → Option Nat :=
  fun d => if d = "sha256:d1" then some 7 else if d = "sha256:d2" then some 3 else none

/-- C6 counterexample: with two Linux children created at times 7 and 3
(in descriptor order), `GetTagDetail` reports 7 — the first non-zero
created time — while the earliest non-zero created time is 3. -/
theorem indexCreated_not_earliest :
    indexCreated c6Manifests c6Config = 7 ∧
    specEarliestLinuxCreated c6Manifests c6Config = 3 ∧ (7 : Nat) ≠ 3 := by decide

lemma createdStep_zero (config : String → Option Nat) (m : Descriptor) :
    createdStep config 0 m = (linuxChildTime config m).getD 0 := by
  unfold createdStep linuxChildTime
  rw [if_pos rfl]
  cases m.platform with
  | none => rfl
  | some pl =>
      by_cases hos : pl.os = "linux" <;> simp [hos]

lemma foldl_createdStep_stable (config : String → Option Nat) (ms : List Descriptor)
    (acc : Nat) (h : acc ≠ 0) : ms.foldl (createdStep config) acc = acc := by
  induction ms with
  | nil => rfl
  | cons m t ih =>
      rw [List.foldl_cons]
      have hs : createdStep config acc m = acc := by
        unfold createdStep
        rw [if_neg h]
      rw [hs, ih]

/-- C6 amended: for an index-typed tag, the reported creation timestamp is
the **first** non-zero created time among the Linux-platform children in
descriptor order (children whose config fetch fails or returns the zero
time are passed over), and the zero time if there is none — not the
earliest such time. -/
theorem indexCreated_is_first_nonzero (manifests : List Descriptor)
    (config : String → Option Nat) :
    indexCreated manifests config = (linuxCreatedTimes manifests config).headD 0 := by
  induction manifests with
  | nil => rfl
  | cons m t ih =>
      unfold indexCreated linuxCreatedTimes at ih ⊢
      rw [List.foldl_cons, createdStep_zero, List.filterMap_cons]
      cases hlt : linuxChildTime config m with
      | none => exact ih
      | some ts =>
          by_cases hts : ts = 0
          · subst hts
            exact ih
          · rw [List.filter_cons, if_pos (decide_eq_true hts), List.headD_cons,
              Option.getD_some]
            exact foldl_createdStep_stable config t ts hts

/-! ## Claim C9: guarded close of the progress channel

`migrateCmd` closes the `updates` channel inside a function that defers a
`recover()`.  Go channel-close semantics: `close` on an already-closed
channel panics.  The channel's state is the `Bool` "already closed"; the
second component of `guardedCloseUpdates` is whether a panic escapes the
wrapper. -/

inductive CloseSignal where
  | completed
  | panicked
deriving Repr, DecidableEq

/-- Go runtime semantics of `close(ch)`: panics iff the channel is already
closed, otherwise marks it closed. -/
def closeChannel (closed : Bool) : Bool × CloseSignal :=
  if closed then (closed, .panicked) else (true, .completed)

/-- The guarded close in `migrateCmd`: `close(updates)` wrapped in a
function with `defer func() { if r := recover(); r != nil {} }()`, which
swallows the double-close panic. -/
def guardedCloseUpdates (closed : Bool) : Bool × Bool :=
  match closeChannel closed with
  | (s, .panicked) => (s, false)
  | (s, .completed) => (s, false)

/-- C9: the guarded close never lets a panic escape, leaves the channel
closed, a subsequent guarded close is equally safe, and the guard is not
vacuous: the raw `close` of an already-closed channel does panic. -/
theorem guardedClose_never_fatal (closed : Bool) :
    (guardedCloseUpdates closed).2 = false ∧
    (guardedCloseUpdates closed).1 = true ∧
    (guardedCloseUpdates (guardedCloseUpdates closed).1).2 = false ∧
    (closeChannel true).2 = CloseSignal.panicked := by
  cases closed <;> exact ⟨rfl, rfl, rfl, rfl⟩

/-! ## Harbor namespace provisioner (pkg/harbor/client.go)

The HTTP layer is abstracted as oracles from the request URL to the
outcome of the request.  `HttpOutcome.doError` models a transport error
returned by `c.Client.Do`; `HttpOutcome.response status body parsed`
models a received HTTP response, `parsed` being the result of
`json.Unmarshal` of `body` into a project list (`none` = parse error,
`some names` = the project names in the body). -/

inductive HttpOutcome where
  | doError (msg : String)
  | response (status : Nat) (body : String) (parsed : Option (List String))
deriving Repr, DecidableEq

/-- Linear lookup with exact string comparison: models both the
`for _, p := range projects { if p.Name == project ... }` loop of
`checkProjectExists` and the `checkedProjects[project]` map probe of
`migrateCmd`. -/
def memberStr (l : List String) (a : String) : Bool :=
  match l with
  | [] => false
  | b :: t => if a = b then true else memberStr t a

/-- `Client.checkProjectExists`: 401 is an auth error, any other non-200
status is an API error whose message embeds the response body, a 200
response is parsed and searched for an exact project-name match. -/
def checkProjectExists (project : String) (o : HttpOutcome) : Except String Bool :=
  match o with
  | .doError msg => .error msg
  | .response status body parsed =>
      if status = 401 then .error "认证失败 (401) - 请检查 Harbor 账号密码"
      else if status ≠ 200 then
        .error ("API 响应错误: " ++ toString status ++ ", Body: " ++ body)
      else
        match parsed with
        | none => .error "解析响应失败"
        | some names => .ok (memberStr names project)

inductive CreateOutcome where
  | doError (msg : String)
  | status (code : Nat) (body : String)
deriving Repr, DecidableEq

/-- `Client.createProject`: 201 Created succeeds, 409 Conflict is treated
as success, anything else is an error. -/
def createProject (o : CreateOutcome) : Except String Unit :=
  match o with
  | .doError msg => .error msg
  | .status code body =>
      if code = 201 then .ok ()
      else if code = 409 then .ok ()
      else .error ("创建失败 (" ++ toString code ++ "): " ++ body)

inductive EnsureOutcome where
  | success
  | failure (msg : String)
deriving Repr, DecidableEq

/-- Result of `EnsureProject` together with the observable effects the
claims are about: the final `BaseURL` of the client and the URLs of the
existence-check and create requests actually issued, in order. -/
structure EnsureResult where
  outcome : EnsureOutcome
  baseURL : String
  checkCalls : List String
  createCalls : List String
deriving Repr, DecidableEq

def schemeMismatchPhrase : String := "server gave HTTP response to HTTPS client"

/-- The downgrade-and-retry phase at the top of `EnsureProject`: when the
first existence check fails with an error whose message contains
`schemeMismatchPhrase` and the base URL starts with `https://`, the URL is
rewritten to `http://` (`strings.Replace(..., 1)` under the prefix guard)
and the check is retried exactly once.  Returns the surviving check
result, the base URL in effect afterwards, and the check URLs called. -/
def downgradeStep (check : String → HttpOutcome) (project baseURL : String) :
    Except String Bool × String × List String :=
  match checkProjectExists project (check baseURL) with
  | .error msg =>
      if strContains msg schemeMismatchPhrase && strStartsWith baseURL "https://" then
        (checkProjectExists project (check ("http://" ++ strDrop baseURL 8)),
         "http://" ++ strDrop baseURL 8, [baseURL, "http://" ++ strDrop baseURL 8])
      else (.error msg, baseURL, [baseURL])
  | .ok b => (.ok b, baseURL, [baseURL])

/-- The tail of `EnsureProject` after the downgrade phase, over the
surviving check result `res`, the base URL `url` and check-call list
`calls` in effect, and the outcome `cre` the create request would have
(the request is issued — recorded in `createCalls` — only in the
not-found branch): a surviving check error is returned wrapped as
`检查项目 %s 失败: %w`; a found project is success with no create; an
absent project is created, `createProject`'s verdict deciding. -/
def ensureFromCheck (res : Except String Bool) (url : String) (calls : List String)
    (cre : Except String Unit) (project : String) : EnsureResult :=
  match res with
  | .error msg => ⟨.failure ("检查项目 " ++ project ++ " 失败: " ++ msg), url, calls, []⟩
  | .ok true => ⟨.success, url, calls, []⟩
  | .ok false =>
      match cre with
      | .ok _ => ⟨.success, url, calls, [url]⟩
      | .error msg => ⟨.failure msg, url, calls, [url]⟩

/-- `Client.EnsureProject`: the existence check with the one-shot
protocol downgrade, followed by `ensureFromCheck`; the create request goes
to the base URL left in effect by the downgrade phase. -/
def ensureProject (check : String → HttpOutcome) (create : String → CreateOutcome)
    (baseURL project : String) : EnsureResult :=
  ensureFromCheck (downgradeStep check project baseURL).1
    (downgradeStep check project baseURL).2.1
    (downgradeStep check project baseURL).2.2
    (createProject (create (downgradeStep check project baseURL).2.1)) project

/-! ## The orchestrator's Harbor block (cmd/migrate.go lines 116-134) -/

/-- What the per-image Harbor block leaves behind: the updated
checked-projects set, the existence-check URLs called during the block,
and the warning printed (if any). -/
structure HarborBlockResult where
  checked : List String
  checkCalls : List String
  warning : Option String
deriving Repr, DecidableEq

/-- The Harbor project block run for one image: extract the project from
the destination name (first `/`-separated component, only when the name
has more than one component), skip everything when the project is already
in `checkedProjects`, otherwise call `EnsureProject`, print a warning on
error, and mark the project checked unconditionally. -/
def harborEnsureBlock (check : String → HttpOutcome) (create : String → CreateOutcome)
    (baseURL : String) (checked : List String) (dstName : String) : HarborBlockResult :=
  if (strSplit dstName '/').length > 1 then
    if memberStr checked ((strSplit dstName '/').headD "") then ⟨checked, [], none⟩
    else
      ⟨((strSplit dstName '/').headD "") :: checked,
       (ensureProject check create baseURL ((strSplit dstName '/').headD "")).checkCalls,
       match (ensureProject check create baseURL ((strSplit dstName '/').headD "")).outcome with
       | .failure msg =>
           some ("无法自动创建/检查 Harbor 项目 " ++ (strSplit dstName '/').headD "" ++ ": " ++ msg)
       | .success => none⟩
  else ⟨checked, [], none⟩

inductive StepControl where
  | proceedToMigration
  | skipImage
deriving Repr, DecidableEq

/-- The control flow of one iteration of `migrateCmd`'s image loop up to
the per-tag migration: the Harbor block always runs to completion, and the
only branch that skips the image's migration (`continue`) is a failed tag
listing when the entry specifies no tags — the Harbor block's outcome
never skips it. -/
def migrateImageStep (check : String → HttpOutcome) (create : String → CreateOutcome)
    (baseURL : String) (checked : List String) (dstName : String)
    (tagsSpecified listTagsOk : Bool) : HarborBlockResult × StepControl :=
  if !tagsSpecified && !listTagsOk then
    (harborEnsureBlock check create baseURL checked dstName, StepControl.skipImage)
  else (harborEnsureBlock check create baseURL checked dstName, StepControl.proceedToMigration)


lemma memberStr_cons_self (a : String) (l : List String) : memberStr (a :: l) a = true := by
  unfold memberStr
  rw [if_pos rfl]

/-- The fields of the result that do not depend on the create step. -/
lemma ensureFromCheck_fields (res : Except String Bool) (url : String) (calls : List String)
    (cre : Except String Unit) (project : String) :
    (ensureFromCheck res url calls cre project).checkCalls = calls ∧
    (ensureFromCheck res url calls cre project).baseURL = url := by
  rcases res with m | b
  · exact ⟨rfl, rfl⟩
  · rcases b with _ | _
    · rcases cre with m | u <;> exact ⟨rfl, rfl⟩
    · exact ⟨rfl, rfl⟩

/-! ## Claim C7: idempotent ensure -/

/-- C7: `ensure(namespace)` is idempotent: a successful list-by-name check
that finds the project returns success with no create request; an HTTP 409
Conflict from the create step still yields success; and the orchestrator's
checked-projects cache makes a second block run for the same project issue
no further existence-check network call. -/
theorem ensureProject_idempotent (check : String → HttpOutcome)
    (create : String → CreateOutcome) (baseURL project : String) :
    (∀ body names, check baseURL = HttpOutcome.response 200 body (some names) →
        memberStr names project = true →
        (ensureProject check create baseURL project).outcome = EnsureOutcome.success ∧
        (ensureProject check create baseURL project).createCalls = []) ∧
    (∀ body names cbody, check baseURL = HttpOutcome.response 200 body (some names) →
        memberStr names project = false →
        create baseURL = CreateOutcome.status 409 cbody →
        (ensureProject check create baseURL project).outcome = EnsureOutcome.success) ∧
    (∀ (checked : List String) (dstName : String),
        (harborEnsureBlock check create baseURL
            (harborEnsureBlock check create baseURL checked dstName).checked
            dstName).checkCalls = []) := by
  refine ⟨?_, ?_, ?_⟩
  · intro body names hchk hmem
    have h1 : checkProjectExists project (check baseURL) = Except.ok true := by
      rw [hchk]
      show Except.ok (memberStr names project) = Except.ok true
      rw [hmem]
    have hd : downgradeStep check project baseURL = (Except.ok true, baseURL, [baseURL]) := by
      unfold downgradeStep
      rw [h1]
    unfold ensureProject
    rw [hd]
    exact ⟨rfl, rfl⟩
  · intro body names cbody hchk hmem hcr
    have h1 : checkProjectExists project (check baseURL) = Except.ok false := by
      rw [hchk]
      show Except.ok (memberStr names project) = Except.ok false
      rw [hmem]
    have hd : downgradeStep check project baseURL = (Except.ok false, baseURL, [baseURL]) := by
      unfold downgradeStep
      rw [h1]
    have hc : createProject (create baseURL) = Except.ok () := by
      rw [hcr]
      rfl
    unfold ensureProject
    rw [hd]
    show (ensureFromCheck (Except.ok false) baseURL [baseURL]
        (createProject (create baseURL)) project).outcome = EnsureOutcome.success
    rw [hc]
    rfl
  · intro checked dstName
    by_cases hp : (strSplit dstName '/').length > 1
    · by_cases hc : memberStr checked ((strSplit dstName '/').headD "") = true
      · have h1 : harborEnsureBlock check create baseURL checked dstName
            = ⟨checked, [], none⟩ := by
          unfold harborEnsureBlock
          rw [if_pos hp, if_pos hc]
        rw [h1]
        unfold harborEnsureBlock
        rw [if_pos hp, if_pos hc]
      · have hcheck : (harborEnsureBlock check create baseURL checked dstName).checked
            = ((strSplit dstName '/').headD "") :: checked := by
          unfold harborEnsureBlock
          rw [if_pos hp, if_neg hc]
        rw [hcheck]
        unfold harborEnsureBlock
        rw [if_pos hp, if_pos (memberStr_cons_self _ _)]
    · have h1 : harborEnsureBlock check create baseURL checked dstName
          = ⟨checked, [], none⟩ := by
        unfold harborEnsureBlock
        rw [if_neg hp]
      rw [h1]
      unfold harborEnsureBlock
      rw [if_neg hp]

def c7Check : String → HttpOutcome := fun _ => HttpOutcome.response 200 "[]" (some ["team"])

def c7Create : String → CreateOutcome := fun _ => CreateOutcome.status 409 ""

/-- Witness for C7: the project `team` already exists on the server, so
`ensure` succeeds without a create request, and the second block run for
the same destination name issues no existence check. -/
theorem ensureProject_idempotent_witness :
    ((ensureProject c7Check c7Create "https://h" "team").outcome = EnsureOutcome.success ∧
     (ensureProject c7Check c7Create "https://h" "team").createCalls = []) ∧
    (harborEnsureBlock c7Check c7Create "https://h"
        (harborEnsureBlock c7Check c7Create "https://h" [] "team/app").checked
        "team/app").checkCalls = [] :=
  ⟨(ensureProject_idempotent c7Check c7Create "https://h" "team").1 "[]" ["team"]
      rfl (by decide),
   (ensureProject_idempotent c7Check c7Create "https://h" "team").2.2 [] "team/app"⟩

lemma ensureProject_fields (check : String → HttpOutcome) (create : String → CreateOutcome)
    (baseURL project : String) :
    (ensureProject check create baseURL project).checkCalls
        = (downgradeStep check project baseURL).2.2 ∧
    (ensureProject check create baseURL project).baseURL
        = (downgradeStep check project baseURL).2.1 := by
  unfold ensureProject
  exact ensureFromCheck_fields _ _ _ _ _

/-! ## Claim C8: the protocol downgrade -/

def c8Check : String → HttpOutcome :=
  fun u => if u = "https://h" then HttpOutcome.response 500 schemeMismatchPhrase (some [])
           else HttpOutcome.response 200 "[]" (some ["p"])

def c8Create : String → CreateOutcome := fun _ => CreateOutcome.status 201 ""

/-- C8 counterexample: the existence check at the HTTPS base URL fails
with an HTTP 500 response — not a transport error — whose body happens to
contain the scheme-mismatch phrase; because `EnsureProject` merely tests
`strings.Contains` on the whole error text (which embeds the body), the
provisioner still downgrades to plaintext and retries.  So the downgrade
is not triggered only by scheme-mismatch transport errors. -/
theorem ensureProject_downgrades_on_status_error :
    c8Check "https://h" = HttpOutcome.response 500 schemeMismatchPhrase (some []) ∧
    (ensureProject c8Check c8Create "https://h" "p").checkCalls = ["https://h", "http://h"] ∧
    (ensureProject c8Check c8Create "https://h" "p").outcome = EnsureOutcome.success := by
  refine ⟨by decide, ?_, by decide⟩
  decide

/-- C8 amended: when the existence check fails, the provisioner downgrades
the base URL from `https://` to `http://` and retries exactly once
precisely when the error's message contains the phrase
`server gave HTTP response to HTTPS client` (true of the scheme-mismatch
transport error, but equally of any error whose text embeds the phrase,
e.g. a non-200 response body echoing it) and the base URL starts with
`https://`; any other failing check is returned wrapped, with no downgrade
and no second check; and if the single retry also fails the wrapped retry
error is returned (no further attempts). -/
theorem ensureProject_downgrade_rule (check : String → HttpOutcome)
    (create : String → CreateOutcome) (baseURL project msg : String)
    (herr : checkProjectExists project (check baseURL) = Except.error msg) :
    (strContains msg schemeMismatchPhrase = true → strStartsWith baseURL "https://" = true →
        (ensureProject check create baseURL project).checkCalls
            = [baseURL, "http://" ++ strDrop baseURL 8] ∧
        (ensureProject check create baseURL project).baseURL
            = "http://" ++ strDrop baseURL 8) ∧
    ((strContains msg schemeMismatchPhrase = false ∨ strStartsWith baseURL "https://" = false) →
        (ensureProject check create baseURL project).checkCalls = [baseURL] ∧
        (ensureProject check create baseURL project).outcome
            = EnsureOutcome.failure ("检查项目 " ++ project ++ " 失败: " ++ msg)) ∧
    (∀ msg2, strContains msg schemeMismatchPhrase = true →
        strStartsWith baseURL "https://" = true →
        checkProjectExists project (check ("http://" ++ strDrop baseURL 8))
            = Except.error msg2 →
        (ensureProject check create baseURL project).outcome
            = EnsureOutcome.failure ("检查项目 " ++ project ++ " 失败: " ++ msg2)) := by
  have hboth : strContains msg schemeMismatchPhrase = true →
      strStartsWith baseURL "https://" = true →
      downgradeStep check project baseURL
        = (checkProjectExists project (check ("http://" ++ strDrop baseURL 8)),
           "http://" ++ strDrop baseURL 8, [baseURL, "http://" ++ strDrop baseURL 8]) := by
    intro h1 h2
    unfold downgradeStep
    rw [herr]
    show (if (strContains msg schemeMismatchPhrase && strStartsWith baseURL "https://") = true
          then (checkProjectExists project (check ("http://" ++ strDrop baseURL 8)),
                "http://" ++ strDrop baseURL 8, [baseURL, "http://" ++ strDrop baseURL 8])
          else (Except.error msg, baseURL, [baseURL]))
        = (checkProjectExists project (check ("http://" ++ strDrop baseURL 8)),
           "http://" ++ strDrop baseURL 8, [baseURL, "http://" ++ strDrop baseURL 8])
    rw [h1, h2, if_pos (show (true && true) = true from rfl)]
  refine ⟨?_, ?_, ?_⟩
  · intro h1 h2
    have hf := ensureProject_fields check create baseURL project
    rw [hf.1, hf.2, hboth h1 h2]
    exact ⟨rfl, rfl⟩
  · intro h
    have hno : downgradeStep check project baseURL
        = (Except.error msg, baseURL, [baseURL]) := by
      unfold downgradeStep
      rw [herr]
      show (if (strContains msg schemeMismatchPhrase && strStartsWith baseURL "https://") = true
            then (checkProjectExists project (check ("http://" ++ strDrop baseURL 8)),
                  "http://" ++ strDrop baseURL 8, [baseURL, "http://" ++ strDrop baseURL 8])
            else (Except.error msg, baseURL, [baseURL]))
          = (Except.error msg, baseURL, [baseURL])
      rcases h with h | h
      · rw [h, if_neg (by simp)]
      · rw [h, if_neg (by simp)]
    have hf := ensureProject_fields check create baseURL project
    constructor
    · rw [hf.1, hno]
    · unfold ensureProject
      rw [hno]
      rfl
  · intro msg2 h1 h2 he2
    unfold ensureProject
    rw [hboth h1 h2]
    show (ensureFromCheck
        (checkProjectExists project (check ("http://" ++ strDrop baseURL 8)))
        ("http://" ++ strDrop baseURL 8) [baseURL, "http://" ++ strDrop baseURL 8]
        (createProject (create ("http://" ++ strDrop baseURL 8))) project).outcome
      = EnsureOutcome.failure ("检查项目 " ++ project ++ " 失败: " ++ msg2)
    rw [he2]
    rfl

def c8wCheck : String → HttpOutcome :=
  fun u => if u = "https://h" then HttpOutcome.doError schemeMismatchPhrase
           else HttpOutcome.response 200 "[]" (some ["p"])

/-- Witness for the amended C8: a genuine scheme-mismatch transport error
at an `https://` base URL leads to exactly one retry against the
downgraded URL, which then persists as the client's base URL. -/
theorem ensureProject_downgrade_rule_witness :
    (checkProjectExists "p" (c8wCheck "https://h") = Except.error schemeMismatchPhrase) ∧
    ((ensureProject c8wCheck c8Create "https://h" "p").checkCalls
        = ["https://h", "http://" ++ strDrop "https://h" 8] ∧
     (ensureProject c8wCheck c8Create "https://h" "p").baseURL
        = "http://" ++ strDrop "https://h" 8) :=
  ⟨rfl,
   (ensureProject_downgrade_rule c8wCheck c8Create "https://h" "p" schemeMismatchPhrase
       rfl).1 (by decide) (by decide)⟩

/-! ## Claim C10: a failed ensure still marks the project checked -/

/-- C10: when `EnsureProject` fails for the destination project, the
orchestrator still marks the project checked, records only a warning, and
proceeds to migrate the current image; a later block run for the same
project performs no further existence-check call. -/
theorem ensureFailure_still_cached (check : String → HttpOutcome)
    (create : String → CreateOutcome) (baseURL dstName project msg : String)
    (checked : List String)
    (hp : (strSplit dstName '/').length > 1)
    (hproj : (strSplit dstName '/').headD "" = project)
    (hnew : memberStr checked project = false)
    (hfail : (ensureProject check create baseURL project).outcome
        = EnsureOutcome.failure msg) :
    project ∈ (migrateImageStep check create baseURL checked dstName true true).1.checked ∧
    (migrateImageStep check create baseURL checked dstName true true).1.warning
      = some ("无法自动创建/检查 Harbor 项目 " ++ project ++ ": " ++ msg) ∧
    (migrateImageStep check create baseURL checked dstName true true).2
      = StepControl.proceedToMigration ∧
    (harborEnsureBlock check create baseURL
        (migrateImageStep check create baseURL checked dstName true true).1.checked
        dstName).checkCalls = [] := by
  subst hproj
  have hstep : migrateImageStep check create baseURL checked dstName true true
      = (harborEnsureBlock check create baseURL checked dstName,
         StepControl.proceedToMigration) := rfl
  have hblock : harborEnsureBlock check create baseURL checked dstName
      = ⟨((strSplit dstName '/').headD "") :: checked,
         (ensureProject check create baseURL ((strSplit dstName '/').headD "")).checkCalls,
         some ("无法自动创建/检查 Harbor 项目 " ++ (strSplit dstName '/').headD "" ++ ": "
            ++ msg)⟩ := by
    unfold harborEnsureBlock
    rw [if_pos hp, if_neg (by rw [hnew]; exact Bool.false_ne_true), hfail]
  refine ⟨?_, ?_, ?_, ?_⟩
  · rw [hstep, hblock]
    exact List.mem_cons_self _ _
  · rw [hstep, hblock]
  · rw [hstep]
  · rw [hstep, hblock]
    unfold harborEnsureBlock
    rw [if_pos hp, if_pos (memberStr_cons_self _ _)]

def c10Check : String → HttpOutcome := fun _ => HttpOutcome.doError "dial tcp: refused"

def c10Create : String → CreateOutcome := fun _ => CreateOutcome.status 201 ""

/-- Witness for C10 at a concrete failing oracle and the destination name
`p/app`. -/
theorem ensureFailure_still_cached_witness :
    ((strSplit "p/app" '/').length > 1 ∧
     (strSplit "p/app" '/').headD "" = "p" ∧
     memberStr [] "p" = false ∧
     (ensureProject c10Check c10Create "https://h" "p").outcome
        = EnsureOutcome.failure ("检查项目 p 失败: dial tcp: refused")) ∧
    ("p" ∈ (migrateImageStep c10Check c10Create "https://h" [] "p/app" true true).1.checked ∧
     (migrateImageStep c10Check c10Create "https://h" [] "p/app" true true).1.warning
        = some ("无法自动创建/检查 Harbor 项目 " ++ "p" ++ ": "
            ++ "检查项目 p 失败: dial tcp: refused") ∧
     (migrateImageStep c10Check c10Create "https://h" [] "p/app" true true).2
        = StepControl.proceedToMigration ∧
     (harborEnsureBlock c10Check c10Create "https://h"
        (migrateImageStep c10Check c10Create "https://h" [] "p/app" true true).1.checked
        "p/app").checkCalls = []) :=
  ⟨⟨by decide, by decide, by decide, by decide⟩,
   ensureFailure_still_cached c10Check c10Create "https://h" "p/app" "p"
     ("检查项目 p 失败: dial tcp: refused") [] (by decide) (by decide) (by decide) (by decide)⟩

/-! ## Configuration resolution (pkg/config)

`ImageEntry` and `MigrateConfig` are translated from
`pkg/config/types.go`, restricted to the fields `ResolveImages` and the
claims touch (the registry credential maps do not enter image-list
resolution).  `parseReference` models the third-party
`go-containerregistry` `name.ParseReference` grammar for tag-form
references, which is what the sources call. -/

structure ImageEntry where
  registry : String
  name : String
  targetName : String := ""
  tags : List String
  architectures : List String
deriving Repr, DecidableEq

structure MigrateConfig where
  imageList : String
  images : List ImageEntry
deriving Repr, DecidableEq

structure ParsedRef where
  registry : String
  repository : String
  identifier : String
deriving Repr, DecidableEq

def defaultRegistryHost : String := "index.docker.io"

/-- `name.NewRepository`: split on the first `/`; the first component is a
registry host only when it contains a dot or a colon, otherwise the whole
string is the repository on the default registry. -/
def parseRepositoryParts (base : String) : String × String :=
  match strSplit base '/' with
  | [] => ("", base)
  | [_] => ("", base)
  | first :: rest =>
      if strContainsChar first '.' || strContainsChar first ':' then
        (first, joinWithChar '/' rest)
      else ("", base)

/-- `Registry.RegistryStr`: the default registry host when none was
given. -/
def registryStrOf (reg : String) : String :=
  if reg = "" then defaultRegistryHost else reg

/-- `Repository.RepositoryStr`: single-component repositories on the
default registry get the implicit `library/` namespace. -/
def repositoryStrOf (reg repo : String) : String :=
  if registryStrOf reg = defaultRegistryHost && !(strContainsChar repo '/') then
    "library/" ++ repo
  else repo

/-- `name.ParseReference` restricted to tag-form references (the digest
form does not occur in the configuration lists modelled): the final
`:`-separated component is the tag when it contains no `/`, the tag
defaults to `latest`, and `Identifier()` returns the tag. -/
def parseReference (s : String) : ParsedRef :=
  let parts := strSplit s ':'
  let hasTag := parts.length > 1 && !(strContainsChar (parts.getLastD "") '/')
  let base := if hasTag then joinWithChar ':' parts.dropLast else s
  let tag0 := if hasTag then parts.getLastD "" else ""
  let tag := if tag0 = "" then "latest" else tag0
  let rp := parseRepositoryParts base
  { registry := registryStrOf rp.1,
    repository := repositoryStrOf rp.1 rp.2,
    identifier := tag }

def archDirectiveMark : String := "#arch="

/-- The token list of a `#arch=` directive: the first space-separated
chunk, split on commas, trimmed, blanks dropped. -/
def parseArchTokens (archPart : String) : List String :=
  ((strSplit ((strSplit archPart ' ').headD "") ',').map strTrim).filter (fun a => a ≠ "")

/-- Locate and strip a trailing `#arch=` directive, as `parseImageList`
does with `strings.Index`: returns the trimmed remaining line and the
parsed token list. -/
def stripArchDirective (line : String) : String × List String :=
  match strIndexOfSub line archDirectiveMark with
  | none => (line, [])
  | some idx =>
      (strTrim (strTake line idx),
       if strTrim (strDrop line (idx + 6)) = "" then []
       else parseArchTokens (strTrim (strDrop line (idx + 6))))

def defaultArchitectures : List String := ["amd64", "arm64"]

/-- One iteration of `parseImageList`'s loop (normalize.go lines 29-70):
blank and `#`-comment lines are skipped, the `#arch=` directive is
stripped (skipping the line if nothing remains), the reference is parsed,
missing architectures fall back to the defaults, and the entry records the
reference's registry, repository and single tag. -/
def lineEntry (rawLine : String) : ImageEntry :=
  { registry := (parseReference (stripArchDirective (strTrim rawLine)).1).registry,
    name := (parseReference (stripArchDirective (strTrim rawLine)).1).repository,
    targetName := "",
    tags := [(parseReference (stripArchDirective (strTrim rawLine)).1).identifier],
    architectures :=
      if (stripArchDirective (strTrim rawLine)).2 = [] then defaultArchitectures
      else (stripArchDirective (strTrim rawLine)).2 }

def parseImageLine (rawLine : String) : Option ImageEntry :=
  if strTrim rawLine = "" then none
  else if strStartsWith (strTrim rawLine) "#" then none
  else if (stripArchDirective (strTrim rawLine)).1 = "" then none
  else some (lineEntry rawLine)

/-- `parseImageList`: the surviving lines, in file order. -/
def parseImageList (raw : String) : List ImageEntry :=
  (strSplit raw '\n').filterMap parseImageLine

/-- `MigrateConfig.ResolveImages` (normalize.go lines 17-23): it parses
`cfg.ImageList` and returns the result. -/
def resolveImages (cfg : MigrateConfig) : List ImageEntry :=
  parseImageList cfg.imageList

def sameRepository (a b : ImageEntry) : Bool :=
  a.registry == b.registry && a.name == b.name

/-- The merged plan as the claim (spec §4.5) describes it — claim-side
definition, for comparison with `resolveImages`: explicit entries first in
given order, then the surviving free-text entries in file order; a tagless
explicit entry reserves its whole repository, an explicit entry with tags
reserves each (repository, tag) pair. -/
def claimedMergedPlan (explicitEntries freeText : List ImageEntry) : List ImageEntry :=
  explicitEntries ++ freeText.filter (fun e =>
    !(explicitEntries.any (fun x =>
        sameRepository x e &&
        (x.tags.isEmpty || e.tags.any (fun t => x.tags.contains t)))))

def c3Cfg : MigrateConfig :=
  { imageList := "repo",
    images := [⟨"index.docker.io", "other/repo", "", ["latest"], ["amd64"]⟩] }

/-- C3 counterexample: with one explicit entry (for `other/repo:latest`)
and the free-text line `repo`, the claimed merged plan has two tasks with
the explicit entry first, but `ResolveImages` returns only the free-text
entry — the explicit entry list never enters the plan. -/
theorem resolveImages_drops_explicit_entries :
    resolveImages c3Cfg
      = [⟨"index.docker.io", "library/repo", "", ["latest"], ["amd64", "arm64"]⟩] ∧
    claimedMergedPlan c3Cfg.images (parseImageList c3Cfg.imageList)
      = [⟨"index.docker.io", "other/repo", "", ["latest"], ["amd64"]⟩,
         ⟨"index.docker.io", "library/repo", "", ["latest"], ["amd64", "arm64"]⟩] ∧
    resolveImages c3Cfg
      ≠ claimedMergedPlan c3Cfg.images (parseImageList c3Cfg.imageList) := by decide

set_option maxHeartbeats 1000000 in
lemma parseImageLine_shape (rawLine : String) (e : ImageEntry)
    (h : parseImageLine rawLine = some e) : e = lineEntry rawLine := by
  unfold parseImageLine at h
  by_cases h1 : strTrim rawLine = ""
  · rw [if_pos h1] at h
    exact Option.noConfusion h
  · rw [if_neg h1] at h
    by_cases h2 : strStartsWith (strTrim rawLine) "#" = true
    · rw [if_pos h2] at h
      exact Option.noConfusion h
    · rw [if_neg h2] at h
      by_cases h3 : (stripArchDirective (strTrim rawLine)).1 = ""
      · rw [if_pos h3] at h
        exact Option.noConfusion h
      · rw [if_neg h3] at h
        injection h with h
        exact h.symm

/-- C3 amended: configuration resolution builds the plan solely from the
free-text image list — the surviving lines in file order, each carrying
exactly one tag (`latest` when omitted) and a non-empty architecture list
(the defaults when no directive was given); the explicit structured entry
list is ignored entirely: changing it never changes the plan. -/
theorem resolveImages_uses_only_imageList (cfg : MigrateConfig)
    (es : List ImageEntry) :
    resolveImages { cfg with images := es } = parseImageList cfg.imageList ∧
    resolveImages cfg = parseImageList cfg.imageList ∧
    ∀ e ∈ parseImageList cfg.imageList, e.tags.length = 1 ∧ e.architectures ≠ [] := by
  refine ⟨rfl, rfl, ?_⟩
  intro e he
  rw [parseImageList, List.mem_filterMap] at he
  rcases he with ⟨line, -, hline⟩
  have hsh := parseImageLine_shape line e hline
  subst hsh
  refine ⟨rfl, ?_⟩
  show (if (stripArchDirective (strTrim line)).2 = [] then defaultArchitectures
        else (stripArchDirective (strTrim line)).2) ≠ []
  by_cases hd : (stripArchDirective (strTrim line)).2 = []
  · rw [if_pos hd]
    decide
  · rw [if_neg hd]
    exact hd

/-! ## Claim C5: concurrent tag enumeration (cmd/list.go, list-tags)

`listTagsCmd` launches one goroutine per `(index, tag)` pair, gated by a
10-slot semaphore, each sending one `result{index, info, err}` on a
buffered channel; the main goroutine drains the channel into
`detailsMap[tags[res.index]]` and finally renders one row per tag in slice
order.  In the embedding, the per-goroutine fetch is an oracle
`fetch : Nat → Option TagDetail` (indexed by position, `none` = the
`GetTagDetail` call failed) and the channel-drain order is an arbitrary
permutation `order` of the indexes — each goroutine sends exactly one
result, so any interleaving the scheduler produces is such a permutation
(the semaphore bounds concurrency but does not constrain this order). -/

structure TagDetail where
  name : String
  digest : String := ""
  architectures : List String := []
  size : Int := 0
  created : Nat := 0
  isIndex : Bool := false
deriving Repr, DecidableEq

def defaultTagDetail : TagDetail := ⟨"", "", [], 0, 0, false⟩

/-- The map value stored for position `i`: the fetched detail, or
`registry.TagDetail{Name: tags[res.index]}` when the fetch erred. -/
def detailRow (tags : List String) (fetch : Nat → Option TagDetail) (i : Nat) : TagDetail :=
  match fetch i with
  | some info => info
  | none => ⟨tags.getD i "", "", [], 0, 0, false⟩

def tagKey (tags : List String) (i : Nat) : String := tags.getD i ""

/-- Draining `resultsCh` in completion order `order`: each received result
overwrites `detailsMap[tags[res.index]]`; as an association list, the
newest binding is consulted first, which is Go's last-write-wins. -/
def assembleDetails (tags : List String) (fetch : Nat → Option TagDetail)
    (order : List Nat) : List (String × TagDetail) :=
  order.foldl (fun m i => (tagKey tags i, detailRow tags fetch i) :: m) []

def lookupTag : List (String × TagDetail) → String → Option TagDetail
  | [], _ => none
  | (k, v) :: rest, key => if key = k then some v else lookupTag rest key

/-- The rendered rows: one per tag, in the input (slice) order, each read
back from the assembled map. -/
def listTagsEnumerate (tags : List String) (fetch : Nat → Option TagDetail)
    (order : List Nat) : List TagDetail :=
  tags.map (fun tag =>
    (lookupTag (assembleDetails tags fetch order) tag).getD defaultTagDetail)

lemma assembleDetails_eq_reverse_map (tags : List String) (fetch : Nat → Option TagDetail) :
    ∀ (order : List Nat) (m : List (String × TagDetail)),
      order.foldl (fun acc i => (tagKey tags i, detailRow tags fetch i) :: acc) m
        = (order.map (fun i => (tagKey tags i, detailRow tags fetch i))).reverse ++ m := by
  intro order
  induction order with
  | nil => intro m; rfl
  | cons a t ih =>
      intro m
      rw [List.foldl_cons, ih, List.map_cons, List.reverse_cons, List.append_assoc]
      rfl

lemma lookupTag_perm {l₁ l₂ : List (String × TagDetail)} (h : l₁.Perm l₂) :
    (l₁.map Prod.fst).Nodup → ∀ k, lookupTag l₁ k = lookupTag l₂ k := by
  induction h with
  | nil => intro _ k; rfl
  | cons x h ih =>
      intro hnd k
      rcases x with ⟨kx, vx⟩
      rw [List.map_cons, List.nodup_cons] at hnd
      simp only [lookupTag]
      by_cases hk : k = kx
      · rw [if_pos hk, if_pos hk]
      · rw [if_neg hk, if_neg hk]
        exact ih hnd.2 k
  | swap x y l =>
      intro hnd k
      rcases x with ⟨kx, vx⟩
      rcases y with ⟨ky, vy⟩
      rw [List.map_cons, List.map_cons, List.nodup_cons] at hnd
      have hxy : ky ≠ kx := fun hcontra => hnd.1 (by rw [hcontra]; exact List.mem_cons_self _ _)
      simp only [lookupTag]
      by_cases hk1 : k = ky
      · by_cases hk2 : k = kx
        · exact absurd (hk1.symm.trans hk2) hxy
        · rw [if_pos hk1, if_neg hk2, if_pos hk1]
      · by_cases hk2 : k = kx
        · rw [if_neg hk1, if_pos hk2, if_pos hk2]
        · rw [if_neg hk1, if_neg hk2, if_neg hk2, if_neg hk1]
  | trans h₁ h₂ ih₁ ih₂ =>
      intro hnd k
      rw [ih₁ hnd k]
      exact ih₂ (((h₁.map Prod.fst).nodup_iff).mp hnd) k

lemma tagKey_inj (tags : List String) (hnd : tags.Nodup) {i j : Nat}
    (hi : i < tags.length) (hj : j < tags.length) (h : tagKey tags i = tagKey tags j) :
    i = j := by
  unfold tagKey at h
  rw [List.getD_eq_get tags "" hi, List.getD_eq_get tags "" hj] at h
  have := (List.Nodup.get_inj_iff hnd).mp h
  exact congrArg Fin.val this

lemma lookupTag_map_indexes (tags : List String) (fetch : Nat → Option TagDetail)
    (hnd : tags.Nodup) :
    ∀ (is : List Nat), (∀ i ∈ is, i < tags.length) →
      ∀ j, j < tags.length → j ∈ is →
        lookupTag (is.map (fun i => (tagKey tags i, detailRow tags fetch i))) (tagKey tags j)
          = some (detailRow tags fetch j) := by
  intro is
  induction is with
  | nil => intro _ j _ hj; cases hj
  | cons a t ih =>
      intro hbound j hj hjin
      simp only [List.map_cons, lookupTag]
      by_cases hk : tagKey tags j = tagKey tags a
      · have hja : j = a := tagKey_inj tags hnd hj (hbound a (List.mem_cons_self a t)) hk
        subst hja
        rw [if_pos rfl]
      · rw [if_neg hk]
        have hjin' : j ∈ t := by
          rcases List.mem_cons.mp hjin with h | h
          · exact absurd (by rw [h]) hk
          · exact h
        exact ih (fun i hi => hbound i (List.mem_cons_of_mem a hi)) j hj hjin'

/-- C5: for a duplicate-free input tag list (tag lists come from the
registry's tag listing, whose entries are distinct), the enumeration
returns one `TagDetail` per tag, in the original input order, whatever the
completion order of the concurrent fetches (any permutation of the index
range), and a per-tag fetch failure does not abort the batch: that
position yields a `TagDetail` carrying only the tag name. -/
theorem listTags_enumeration (tags : List String) (fetch : Nat → Option TagDetail)
    (order : List Nat) (hperm : order.Perm (List.range tags.length)) (hnd : tags.Nodup) :
    (listTagsEnumerate tags fetch order).length = tags.length ∧
    (∀ i, i < tags.length →
      (listTagsEnumerate tags fetch order).getD i defaultTagDetail
        = detailRow tags fetch i) ∧
    (∀ i, i < tags.length → fetch i = none →
      (listTagsEnumerate tags fetch order).getD i defaultTagDetail
        = ⟨tags.getD i "", "", [], 0, 0, false⟩) := by
  have hlen : (listTagsEnumerate tags fetch order).length = tags.length := by
    rw [listTagsEnumerate, List.length_map]
  have hbound : ∀ i ∈ order, i < tags.length := by
    intro i hi
    exact List.mem_range.mp (hperm.mem_iff.mp hi)
  have hordnd : order.Nodup := (hperm.nodup_iff).mpr (List.nodup_range _)
  have hkeys : (((order.map
      (fun i => (tagKey tags i, detailRow tags fetch i))).reverse).map Prod.fst).Nodup := by
    rw [← List.map_reverse, List.map_map]
    have : (Prod.fst ∘ fun i => (tagKey tags i, detailRow tags fetch i))
        = fun i => tagKey tags i := rfl
    rw [this]
    refine List.Nodup.map_on ?_ (List.nodup_reverse.mpr hordnd)
    intro x hx y hy hxy
    exact tagKey_inj tags hnd
      (hbound x (List.mem_reverse.mp hx)) (hbound y (List.mem_reverse.mp hy)) hxy
  have hlook : ∀ j, j < tags.length →
      lookupTag (assembleDetails tags fetch order) (tagKey tags j)
        = some (detailRow tags fetch j) := by
    intro j hj
    have hassm : assembleDetails tags fetch order
        = (order.map (fun i => (tagKey tags i, detailRow tags fetch i))).reverse := by
      rw [assembleDetails, assembleDetails_eq_reverse_map, List.append_nil]
    rw [hassm]
    have hbig : ((order.map (fun i => (tagKey tags i, detailRow tags fetch i))).reverse).Perm
        ((List.range tags.length).map (fun i => (tagKey tags i, detailRow tags fetch i))) :=
      (List.reverse_perm _).trans (hperm.map _)
    rw [lookupTag_perm hbig hkeys]
    exact lookupTag_map_indexes tags fetch hnd (List.range tags.length)
      (fun i hi => List.mem_range.mp hi) j hj (List.mem_range.mpr hj)
  have hpos : ∀ i, i < tags.length →
      (listTagsEnumerate tags fetch order).getD i defaultTagDetail
        = detailRow tags fetch i := by
    intro i hi
    rw [listTagsEnumerate, List.getD_eq_get _ defaultTagDetail (by simpa using hi),
      List.get_map]
    have hget : tags.get ⟨i, hi⟩ = tagKey tags i := (List.getD_eq_get tags "" hi).symm
    rw [hget, hlook i hi]
    rfl
  refine ⟨hlen, hpos, ?_⟩
  intro i hi hfail
  rw [hpos i hi, detailRow, hfail]

def c5Tags : List String := ["a", "b", "c"]

def c5Fetch : Nat → Option TagDetail :=
  fun i => if i = 0 then some ⟨"a", "sha256:aa", ["linux/amd64"], 5, 9, false⟩ else none

/-- Witness for C5: three tags, the fetches for `b` and `c` fail, and the
results complete in the order `c, a, b`; the rows still come out in input
order, with name-only rows at the failed positions. -/
theorem listTags_enumeration_witness :
    (([2, 0, 1] : List Nat).Perm (List.range c5Tags.length) ∧ c5Tags.Nodup) ∧
    ((listTagsEnumerate c5Tags c5Fetch [2, 0, 1]).length = c5Tags.length ∧
     (∀ i, i < c5Tags.length →
       (listTagsEnumerate c5Tags c5Fetch [2, 0, 1]).getD i defaultTagDetail
         = detailRow c5Tags c5Fetch i) ∧
     (∀ i, i < c5Tags.length → c5Fetch i = none →
       (listTagsEnumerate c5Tags c5Fetch [2, 0, 1]).getD i defaultTagDetail
         = ⟨c5Tags.getD i "", "", [], 0, 0, false⟩)) :=
  ⟨⟨by decide, by decide⟩,
   listTags_enumeration c5Tags c5Fetch [2, 0, 1] (by decide) (by decide)⟩
